import Mathlib

/-!
Verification development for the cover-image download pipeline
(`src/app.py`, the basic variant, and `src/pages/1_pobieranie_okladek.py`,
the enhanced "PRO" variant).

Shallow embedding conventions:
* bytes are modelled as `List Nat`;
* pandas cells are `Option CellVal` (`none` models `pd.isna`);
* the PIL image library and `urlparse`/`splitext` are modelled by oracle
  functions gathered in environment structures (`PILEnv`, `Env`);
* HTTP attempts are an oracle `Nat → Except String ByteSeq` giving the
  outcome of each successive `requests.get` call;
* `time.sleep` calls are counted, not performed.
-/

/-- Bytes of a downloaded or encoded image. -/
abbrev ByteSeq := List Nat

/-- Characters treated as whitespace by Python's `str.strip()`
(the ASCII whitespace set). -/
def pyIsSpace (c : Char) : Bool :=
  c = ' ' || c = '\t' || c = '\n' || c = '\r' || c = '\x0b' || c = '\x0c'

/-- Strip leading and trailing whitespace from a character list,
modelling Python `str.strip()`. -/
def stripChars (cs : List Char) : List Char :=
  ((cs.dropWhile pyIsSpace).reverse.dropWhile pyIsSpace).reverse

/-- Python `s.strip()`. -/
def pyStrip (s : String) : String := ⟨stripChars s.data⟩

/-- Python `s.replace(' ', '')`: remove every space character. -/
def pyRemoveSpaces (s : String) : String := ⟨s.data.filter (fun c => c != ' ')⟩

/-- The decimal digit character for `d` (meaningful for `d < 10`). -/
def digitChar (d : Nat) : Char := Char.ofNat (48 + d)

/-- Little-endian decimal digits of `n`, fuel-based so that it is
structurally recursive (fuel `n + 1` always suffices). -/
def natDigitsRevAux : Nat → Nat → List Char
  | 0, _ => []
  | fuel + 1, n =>
    if n < 10 then [digitChar n]
    else digitChar (n % 10) :: natDigitsRevAux fuel (n / 10)

/-- Decimal string of a natural number, modelling Python `str` on a
non-negative `int`. -/
def natStr (n : Nat) : String := ⟨(natDigitsRevAux (n + 1) n).reverse⟩

/-- Decimal string of an integer, modelling Python `str` on an `int`. -/
def intStr (i : Int) : String :=
  if i < 0 then "-" ++ natStr i.natAbs else natStr i.natAbs

/-- Numeric value of a digit character. -/
def charVal (c : Char) : Nat := c.toNat - 48

/-- Value of a big-endian digit-character list. -/
def digitsVal (cs : List Char) : Nat := cs.foldl (fun a c => a * 10 + charVal c) 0

/-- Parse an unsigned decimal literal `digits` or `digits.digits`
(at least one digit overall) and truncate the fraction away, modelling
`int(float(s))` on the unsigned part.  `none` models a `ValueError`. -/
def parseUnsignedTrunc (cs : List Char) : Option Nat :=
  let intPart := cs.takeWhile Char.isDigit
  let rest := cs.dropWhile Char.isDigit
  match rest with
  | [] => if intPart.isEmpty then none else some (digitsVal intPart)
  | '.' :: frac =>
    if frac.all Char.isDigit && !(intPart.isEmpty && frac.isEmpty) then
      some (digitsVal intPart)
    else none
  | _ => none

/-- Model of Python `int(float(s))`: strip whitespace, optional sign,
decimal digits with an optional fractional part; truncation is toward
zero.  `none` models the `ValueError`/`OverflowError` branch. -/
def pyParseNumTrunc (s : String) : Option Int :=
  match stripChars s.data with
  | '-' :: cs => (parseUnsignedTrunc cs).map (fun n => -(n : Int))
  | '+' :: cs => (parseUnsignedTrunc cs).map (fun n => (n : Int))
  | cs => (parseUnsignedTrunc cs).map (fun n => (n : Int))

/-- A non-blank spreadsheet cell: either a float that stores an integer
value `n` (spreadsheet numeric storage `n.0`) or a text cell. -/
inductive CellVal where
  | numV (n : Int)
  | strV (s : String)
deriving DecidableEq

/-- The identifier normalizer,
`ean = str(int(float(ean))).strip().replace(' ', '')` with fallback
`ean = str(ean).strip().replace(' ', '')` on parse failure
(`src/pages/1_pobieranie_okladek.py` lines 232–235, `src/app.py`
lines 213–216). -/
def normEan : CellVal → String
  | .numV n => pyRemoveSpaces (pyStrip (intStr n))
  | .strV s =>
    match pyParseNumTrunc s with
    | some k => pyRemoveSpaces (pyStrip (intStr k))
    | none => pyRemoveSpaces (pyStrip s)

/-- Python `s.split('\n')` on a character list (big-endian accumulator). -/
def splitLinesAux : List Char → List Char → List (List Char)
  | [], acc => [acc.reverse]
  | '\n' :: t, acc => acc.reverse :: splitLinesAux t []
  | c :: t, acc => splitLinesAux t (c :: acc)

/-- Python `s.split('\n')`. -/
def splitLines (s : String) : List String :=
  (splitLinesAux s.data []).map (fun cs => ⟨cs⟩)

/-- Add an element to a list acting as a set (models `set.add` /
building `set(ean_list)`): membership-preserving, no duplicates added. -/
def insertIfNew (l : List String) (e : String) : List String :=
  if l.contains e then l else l ++ [e]

/-- `parse_ean_list` (`src/pages/1_pobieranie_okladek.py` lines 137–150):
empty text gives the empty set; otherwise split the stripped text into
lines, strip each line, skip blank lines, normalize each entry through
`str(int(float(ean)))` with a literal-string fallback, and collect the
results as a set (modelled as a duplicate-free list). -/
def parseEanList (t : String) : List String :=
  if t = "" then []
  else
    (splitLines (pyStrip t)).foldl
      (fun acc line =>
        let e := pyStrip line
        if e = "" then acc
        else
          let e2 :=
            match pyParseNumTrunc e with
            | some k => pyStrip (intStr k)
            | none => pyStrip e
          insertIfNew acc e2)
      []

/-- PIL image modes relevant to `has_transparency`. -/
inductive PILMode where
  | RGBA
  | LA
  | P
  | RGB
  | other
deriving DecidableEq

/-- Abstraction of a decoded PIL image: its mode, whether the alpha
channel is fully opaque (`alpha.getextrema() == (255, 255)`), whether
`'transparency' in image.info`, and whether `image.format` is JPEG. -/
structure PILImage where
  mode : PILMode
  alphaOpaque : Bool
  transparencyKey : Bool
  isJpeg : Bool
deriving DecidableEq

/-- `has_transparency` (`src/pages/1_pobieranie_okladek.py` lines 45–59):
RGBA/LA images are transparent when the alpha extrema differ from
`(255, 255)`; palette images when `'transparency' in image.info`;
everything else is opaque. -/
def has_transparency (image : PILImage) : Bool :=
  match image.mode with
  | .RGBA => !image.alphaOpaque
  | .LA => !image.alphaOpaque
  | .P => image.transparencyKey
  | _ => false

/-- Oracle for the PIL operations the pipeline performs.
`imageOpen` models `Image.open` (`none` = raises);
`saveFlattened` models the composite-onto-white-and-save step of
`add_white_background` (`none` = raises);
`savePng img flattened` models the save-as-PNG step of
`convert_webp_to_png` after optional flattening (`none` = raises). -/
structure PILEnv where
  imageOpen : ByteSeq → Option PILImage
  saveFlattened : PILImage → Option ByteSeq
  savePng : PILImage → Bool → Option ByteSeq

/-- The body of `add_white_background` before its `except` clause:
open the image, return the input bytes when no transparency is present,
otherwise composite onto a white canvas and re-encode.
`Except.error ()` models a raised exception. -/
def awbBody (pil : PILEnv) (image_bytes : ByteSeq) : Except Unit ByteSeq :=
  match pil.imageOpen image_bytes with
  | none => .error ()
  | some image =>
    if has_transparency image = false then .ok image_bytes
    else
      match pil.saveFlattened image with
      | none => .error ()
      | some out => .ok out

/-- `add_white_background` (`src/pages/1_pobieranie_okladek.py`
lines 61–80): the whole body is wrapped in `try/except` returning the
input bytes on any exception. -/
def add_white_background (pil : PILEnv) (image_bytes : ByteSeq) : ByteSeq :=
  match awbBody pil image_bytes with
  | .ok out => out
  | .error _ => image_bytes

/-- `convert_webp_to_png` (`src/pages/1_pobieranie_okladek.py`
lines 82–102): open the image, flatten transparency onto white when
requested and present, save as PNG; any failure raises a conversion
error (`Except.error`). -/
def convert_webp_to_png (pil : PILEnv) (image_bytes : ByteSeq)
    (remove_transparency : Bool) : Except String ByteSeq :=
  match pil.imageOpen image_bytes with
  | none => .error "Błąd konwersji WebP"
  | some image =>
    let didFlatten := remove_transparency && has_transparency image
    match pil.savePng image didFlatten with
    | none => .error "Błąd konwersji WebP"
    | some out => .ok out

/-- Result of a fetch: the returned value or propagated exception, the
number of `requests.get` attempts made, and the total units slept
between attempts (`time.sleep(2)` per retry). -/
structure FetchTrace where
  result : Except String ByteSeq
  attempts : Nat
  sleepUnits : Nat

/-- The retry loop of the enhanced `pobierz_obraz`
(`src/pages/1_pobieranie_okladek.py` lines 115–126): try attempt
`attempt`; on success return the body; on failure sleep 2 units and
retry while retries remain, else re-raise the last error. -/
def fetchAux (oracle : Nat → Except String ByteSeq) (attempt : Nat) :
    Nat → FetchTrace
  | 0 =>
    match oracle attempt with
    | .ok b => ⟨.ok b, 1, 0⟩
    | .error e => ⟨.error e, 1, 0⟩
  | remaining + 1 =>
    match oracle attempt with
    | .ok b => ⟨.ok b, 1, 0⟩
    | .error _ =>
      let t := fetchAux oracle (attempt + 1) remaining
      ⟨t.result, t.attempts + 1, t.sleepUnits + 2⟩

/-- Enhanced-variant `pobierz_obraz`: `max_retries = 2`, so up to three
attempts in total. -/
def pobierz_obraz_pro (oracle : Nat → Except String ByteSeq) : FetchTrace :=
  fetchAux oracle 0 2

/-- Basic-variant `pobierz_obraz` (`src/app.py` lines 58–65): a single
`requests.get` whose outcome — success or exception — is returned
directly, with no retry and no sleep. -/
def pobierz_obraz_basic (oracle : Nat → Except String ByteSeq) : FetchTrace :=
  ⟨oracle 0, 1, 0⟩

/-- Python dict key-membership test, `filename in downloaded_files`. -/
def keyMem (l : List (String × ByteSeq)) (k : String) : Bool :=
  l.any (fun p => p.1 == k)

/-- Python dict assignment `d[k] = v` on an insertion-ordered
association list: replace in place when the key exists, else append. -/
def dictSet (l : List (String × ByteSeq)) (k : String) (v : ByteSeq) :
    List (String × ByteSeq) :=
  match l with
  | [] => [(k, v)]
  | (k', v') :: t => if k' = k then (k, v) :: t else (k', v') :: dictSet t k v

/-- Python dict lookup `d[k]` as an option. -/
def dictGet (l : List (String × ByteSeq)) (k : String) : Option ByteSeq :=
  match l with
  | [] => none
  | (k', v') :: t => if k' = k then some v' else dictGet t k

/-- The key sequence of the bundle. -/
def keysOf (l : List (String × ByteSeq)) : List String := l.map Prod.fst

/-- The bundle add step of the enhanced pipeline
(`src/pages/1_pobieranie_okladek.py` lines 272–277): when the filename
already exists and overwrite is disabled the bundle is left unchanged
and the call reports a duplicate skip (`true`); otherwise the payload is
stored under the filename. -/
def bundleAdd (files : List (String × ByteSeq)) (overwrite : Bool)
    (filename : String) (data : ByteSeq) : List (String × ByteSeq) × Bool :=
  if keyMem files filename && !overwrite then (files, true)
  else (dictSet files filename data, false)

/-- Run configuration: the sidebar options of the enhanced page. -/
structure Config where
  handle_transparency : Bool
  convert_webp : Bool
  overwrite : Bool

/-- The `stats` dictionary of the enhanced page (line 208). -/
structure Stats where
  sukces : Nat
  blad : Nat
  istnieje : Nat
  konwersje : Nat
  transparency_fixed : Nat
  nieznalezione_ean : Nat
  pdf_pominiete : Nat
  puste_wiersze : Nat
deriving DecidableEq

/-- All-zero counters at run start. -/
def Stats.zero : Stats := ⟨0, 0, 0, 0, 0, 0, 0, 0⟩

/-- Mutable run state owned by the orchestrator: the in-memory bundle
`downloaded_files`, the counters, `errors_log`, `pdf_eans`,
`transparency_processed`, `found_eans`, and the number of inter-row
`time.sleep(delay_between)` pauses executed. -/
structure RunState where
  files : List (String × ByteSeq)
  stats : Stats
  errors : List String
  pdfEans : List String
  transparencyProcessed : List String
  foundEans : List String
  sleeps : Nat

/-- Fresh state at the start of a run. -/
def initState : RunState := ⟨[], Stats.zero, [], [], [], [], 0⟩

/-- Terminal outcome of one row of the enhanced pipeline. -/
inductive Outcome where
  | empty
  | filtered
  | pdf
  | errorOut
  | duplicate
  | added
deriving DecidableEq

/-- One spreadsheet row: the identifier cell and the URL cell, `none`
modelling `pd.isna`. -/
structure Row where
  ean : Option CellVal
  link : Option String

/-- External-world oracle for one run: PIL, the extension resolver
`os.path.splitext(urlparse(link).path)[1].lower()`, and the overall
outcome of `pobierz_obraz(link)` (retries included). -/
structure Env where
  pil : PILEnv
  extOf : String → String
  fetchRes : String → Except String ByteSeq

/-- The allow-list guard `ean_filter_set and ean not in ean_filter_set`:
`None` and the empty set are falsy, so they never block a row. -/
def filterBlocks (fs : Option (List String)) (ean : String) : Bool :=
  match fs with
  | none => false
  | some l => !l.isEmpty && !(l.contains ean)

/-- The document-link test `'.pdf' in str(link).lower()`. -/
def pdfInUrl (link : String) : Bool :=
  decide (".pdf".data <:+: (link.data.map Char.toLower))

/-- `ALLOWED_FORMATS` (line 42). -/
def ALLOWED_FORMATS : List String :=
  [".jpg", ".jpeg", ".png", ".gif", ".webp", ".bmp"]

/-- `DEFAULT_FORMAT` (line 43). -/
def DEFAULT_FORMAT : String := ".jpg"

/-- The error-log entry `f"EAN: {ean} | Błąd: {str(e)}"`. -/
def errEntry (ean msg : String) : String :=
  "EAN: " ++ ean ++ " | Błąd: " ++ msg

/-- The transparency step (lines 260–265): outside the `.webp` case,
run `add_white_background`; when the bytes changed, record the fix. -/
def transparencyStep (cfg : Config) (pil : PILEnv) (st : RunState)
    (ean ext : String) (data : ByteSeq) : RunState × ByteSeq :=
  if cfg.handle_transparency && ext != ".webp" then
    let processed := add_white_background pil data
    if processed ≠ data then
      ({ st with
          stats := { st.stats with
            transparency_fixed := st.stats.transparency_fixed + 1 },
          transparencyProcessed := st.transparencyProcessed ++ [ean] },
        processed)
    else (st, data)
  else (st, data)

/-- The tail of the row body (lines 272–278): duplicate check against
the bundle, then either a duplicate skip or a successful add. -/
def finishRow (cfg : Config) (st : RunState) (ean ext : String)
    (data : ByteSeq) : RunState × Outcome :=
  let r := bundleAdd st.files cfg.overwrite (ean ++ ext) data
  if r.2 then
    ({ st with
        files := r.1,
        stats := { st.stats with istnieje := st.stats.istnieje + 1 } },
      Outcome.duplicate)
  else
    ({ st with
        files := r.1,
        stats := { st.stats with sukces := st.stats.sukces + 1 } },
      Outcome.added)

/-- Processing after a successful fetch (lines 259–278): transparency
fix, optional WebP→PNG conversion (switching the extension to `.png`
and counting the conversion), then the bundle step.  A conversion
failure is the row's error outcome. -/
def afterFetch (cfg : Config) (pil : PILEnv) (st : RunState)
    (ean ext : String) (data0 : ByteSeq) : RunState × Outcome :=
  let p := transparencyStep cfg pil st ean ext data0
  if cfg.convert_webp && ext == ".webp" then
    match convert_webp_to_png pil p.2 cfg.handle_transparency with
    | .error e =>
      ({ p.1 with
          stats := { p.1.stats with blad := p.1.stats.blad + 1 },
          errors := p.1.errors ++ [errEntry ean e] },
        Outcome.errorOut)
    | .ok data2 =>
      let st2 := { p.1 with
        stats := { p.1.stats with konwersje := p.1.stats.konwersje + 1 } }
      finishRow cfg st2 ean ".png" data2
  else finishRow cfg p.1 ean ext p.2

/-- The inter-row throttle `time.sleep(delay_between)` at the bottom of
the loop body (line 287): the `continue` statements of the empty,
filtered, pdf and duplicate paths skip it, so only the error and added
paths reach it. -/
def addSleep (st : RunState) (o : Outcome) : RunState :=
  if o = Outcome.errorOut || o = Outcome.added then
    { st with sleeps := st.sleeps + 1 }
  else st

/-- One iteration of the per-row loop of the enhanced pipeline
(`src/pages/1_pobieranie_okladek.py` lines 221–287): blank check,
identifier normalization, allow-list filter, pdf skip, extension
resolution, fetch, image processing, bundle step; every exception of
the `try` block (fetch or conversion) is caught at the row boundary. -/
def processRow (cfg : Config) (env : Env) (fs : Option (List String))
    (st : RunState) (row : Row) : RunState × Outcome :=
  match row.link, row.ean with
  | some link, some eanCell =>
    let ean := normEan eanCell
    if filterBlocks fs ean then
      ({ st with stats := { st.stats with
          nieznalezione_ean := st.stats.nieznalezione_ean + 1 } },
        Outcome.filtered)
    else
      let st1 := { st with foundEans := insertIfNew st.foundEans ean }
      let ext0 := env.extOf link
      if ext0 == ".pdf" || pdfInUrl link then
        ({ st1 with
            stats := { st1.stats with
              pdf_pominiete := st1.stats.pdf_pominiete + 1 },
            pdfEans := st1.pdfEans ++ [ean] },
          Outcome.pdf)
      else
        let ext :=
          if ext0 == "" || !(ALLOWED_FORMATS.contains ext0) then
            DEFAULT_FORMAT
          else ext0
        let r :=
          match env.fetchRes link with
          | .error e =>
            ({ st1 with
                stats := { st1.stats with blad := st1.stats.blad + 1 },
                errors := st1.errors ++ [errEntry ean e] },
              Outcome.errorOut)
          | .ok data0 => afterFetch cfg env.pil st1 ean ext data0
        (addSleep r.1 r.2, r.2)
  | _, _ =>
    ({ st with stats := { st.stats with
        puste_wiersze := st.stats.puste_wiersze + 1 } },
      Outcome.empty)

/-- The whole row loop: fold `processRow` over the table in order,
collecting the outcome of every row. -/
def runRows (cfg : Config) (env : Env) (fs : Option (List String)) :
    RunState → List Row → RunState × List Outcome
  | st, [] => (st, [])
  | st, r :: rs =>
    let p := processRow cfg env fs st r
    let q := runRows cfg env fs p.1 rs
    (q.1, p.2 :: q.2)

/-- `ean_filter_set - found_eans if ean_filter_set else None`
(line 291): the missing-identifier report, `none` when the filter is
falsy. -/
def missingEans (fs : Option (List String)) (found : List String) :
    Option (List String) :=
  match fs with
  | none => none
  | some l => if l.isEmpty then none else some (l.filter (fun e => !found.contains e))

/-- A complete run of the enhanced pipeline: build the filter from the
text area (`parse_ean_list(ean_filter_text) if ean_filter_text else
None`, line 205), fold over the rows, and report the missing
identifiers. -/
def runAll (cfg : Config) (env : Env) (filterText : String)
    (rows : List Row) : RunState × List Outcome × Option (List String) :=
  let fs := if filterText = "" then none else some (parseEanList filterText)
  let p := runRows cfg env fs initState rows
  (p.1, p.2, missingEans fs p.1.foundEans)

/-- Sum of the six terminal-outcome counters (each row's single terminal
outcome increments exactly one of these). -/
def termSum (s : Stats) : Nat :=
  s.puste_wiersze + s.nieznalezione_ean + s.pdf_pominiete + s.blad +
    s.istnieje + s.sukces

/-- Pointwise order on all eight counters: no counter is ever
decremented. -/
def statLe (a b : Stats) : Prop :=
  a.sukces ≤ b.sukces ∧ a.blad ≤ b.blad ∧ a.istnieje ≤ b.istnieje ∧
  a.konwersje ≤ b.konwersje ∧ a.transparency_fixed ≤ b.transparency_fixed ∧
  a.nieznalezione_ean ≤ b.nieznalezione_ean ∧
  a.pdf_pominiete ≤ b.pdf_pominiete ∧ a.puste_wiersze ≤ b.puste_wiersze

/-- Sum of all eight counters: the total number of statistics
increments a run has performed. -/
def allSum (s : Stats) : Nat := termSum s + s.konwersje + s.transparency_fixed

/-- A fully opaque RGB image (no alpha, no palette transparency). -/
def imgRGB : PILImage := ⟨.RGB, true, false, false⟩

/-- An RGBA image with a non-fully-opaque pixel. -/
def imgRGBAT : PILImage := ⟨.RGBA, false, false, false⟩

/-- Oracle for a remote host serving a `.webp` image that always
downloads successfully and converts cleanly. -/
def envWebpOk : Env :=
  { pil := { imageOpen := fun _ => some imgRGB,
             saveFlattened := fun _ => none,
             savePng := fun _ _ => some [9] },
    extOf := fun _ => ".webp",
    fetchRes := fun _ => .ok [1, 2, 3] }

/-- Oracle for a remote host serving a `.jpg` image that always
downloads successfully. -/
def envJpgOk : Env := { envWebpOk with extOf := fun _ => ".jpg" }

/-- Oracle for a remote host whose fetches always fail. -/
def envJpgErr : Env := { envJpgOk with fetchRes := fun _ => .error "timeout" }

/-- Configuration: no transparency handling, WebP conversion on,
overwrite off. -/
def cfgWebp : Config := ⟨false, true, false⟩

/-- A row holding identifier `5` and a URL. -/
def rowU : Row := ⟨some (.numV 5), some "u"⟩

/-- A run state whose bundle already holds `5.jpg`. -/
def stWithFile : RunState := { initState with files := [("5.jpg", [0])] }

/-- Attempt oracle: the first request fails, every retry succeeds. -/
def oracleFailFirst : Nat → Except String ByteSeq :=
  fun n => if n = 0 then .error "boom" else .ok [1]

/-- Attempt oracle: every request fails. -/
def oracleAllErr : Nat → Except String ByteSeq := fun _ => .error "down"

/-- PIL oracle whose decode always yields the opaque `imgRGB`. -/
def pilOpaque : PILEnv :=
  ⟨fun _ => some imgRGB, fun _ => none, fun _ _ => none⟩

/-- PIL oracle whose decode always fails (bytes are not an image). -/
def pilBroken : PILEnv :=
  ⟨fun _ => none, fun _ => none, fun _ _ => none⟩

/-- PIL oracle: decode yields a transparent image, re-encode fails. -/
def pilEncodeFail : PILEnv :=
  ⟨fun _ => some imgRGBAT, fun _ => none, fun _ _ => none⟩

/- ------------------------------------------------------------------
Helper lemmas.
------------------------------------------------------------------ -/

theorem digitChar_not_special {d : Nat} (h : d < 10) :
    digitChar d ≠ '.' ∧ digitChar d ≠ ' ' ∧ pyIsSpace (digitChar d) = false := by
  unfold digitChar
  interval_cases d <;> exact ⟨by decide, by decide, by decide⟩

theorem mem_natDigitsRevAux {fuel n : Nat} {c : Char}
    (h : c ∈ natDigitsRevAux fuel n) : ∃ d, d < 10 ∧ c = digitChar d := by
  induction fuel generalizing n with
  | zero => simp [natDigitsRevAux] at h
  | succ fuel ih =>
    unfold natDigitsRevAux at h
    by_cases hn : n < 10
    · simp [hn] at h
      exact ⟨n, hn, h⟩
    · simp [hn] at h
      rcases h with h | h
      · exact ⟨n % 10, Nat.mod_lt _ (by omega), h⟩
      · exact ih h

theorem mem_natStr {n : Nat} {c : Char} (h : c ∈ (natStr n).data) :
    ∃ d, d < 10 ∧ c = digitChar d := by
  unfold natStr at h
  rw [List.mem_reverse] at h
  exact mem_natDigitsRevAux h

theorem mem_intStr {i : Int} {c : Char} (h : c ∈ (intStr i).data) :
    c = '-' ∨ ∃ d, d < 10 ∧ c = digitChar d := by
  unfold intStr at h
  by_cases hi : i < 0
  · simp only [hi, if_true] at h
    rw [String.data_append] at h
    rcases List.mem_append.mp h with h | h
    · left
      simpa using h
    · right
      exact mem_natStr h
  · simp only [hi, if_false] at h
    right
    exact mem_natStr h

theorem intStr_char_not_special {i : Int} {c : Char} (h : c ∈ (intStr i).data) :
    c ≠ '.' ∧ c ≠ ' ' ∧ pyIsSpace c = false := by
  rcases mem_intStr h with h | ⟨d, hd, rfl⟩
  · subst h
    exact ⟨by decide, by decide, by decide⟩
  · exact digitChar_not_special hd

theorem dropWhile_eq_self_of_none {p : Char → Bool} {l : List Char}
    (h : ∀ c ∈ l, p c = false) : l.dropWhile p = l := by
  cases l with
  | nil => rfl
  | cons a t =>
    rw [List.dropWhile_cons, h a (List.mem_cons_self a t)]
    simp

theorem stripChars_eq_self {l : List Char}
    (h : ∀ c ∈ l, pyIsSpace c = false) : stripChars l = l := by
  unfold stripChars
  rw [dropWhile_eq_self_of_none h]
  rw [dropWhile_eq_self_of_none (fun c hc => h c (List.mem_reverse.mp hc))]
  exact List.reverse_reverse l

theorem pyStrip_intStr (i : Int) : pyStrip (intStr i) = intStr i := by
  unfold pyStrip
  rw [stripChars_eq_self (fun c hc => (intStr_char_not_special hc).2.2)]

theorem pyRemoveSpaces_intStr (i : Int) :
    pyRemoveSpaces (intStr i) = intStr i := by
  unfold pyRemoveSpaces
  rw [List.filter_eq_self.mpr]
  intro c hc
  have := (intStr_char_not_special hc).2.1
  simpa [bne_iff_ne] using this

theorem normEan_numV (n : Int) : normEan (.numV n) = intStr n := by
  show pyRemoveSpaces (pyStrip (intStr n)) = intStr n
  rw [pyStrip_intStr, pyRemoveSpaces_intStr]

theorem dot_not_mem_intStr (i : Int) : '.' ∉ (intStr i).data := by
  intro h
  exact absurd rfl (intStr_char_not_special h).1

theorem statLe_refl (s : Stats) : statLe s s := by
  simp [statLe]

theorem statLe_trans {a b c : Stats} (h1 : statLe a b) (h2 : statLe b c) :
    statLe a c := by
  unfold statLe at *
  omega

theorem finishRow_stats (cfg : Config) (st : RunState) (ean ext : String)
    (d : ByteSeq) :
    termSum (finishRow cfg st ean ext d).1.stats = termSum st.stats + 1 ∧
    statLe st.stats (finishRow cfg st ean ext d).1.stats := by
  unfold finishRow
  dsimp only
  split <;> simp [termSum, statLe] <;> omega

theorem transparencyStep_stats (cfg : Config) (pil : PILEnv) (st : RunState)
    (ean ext : String) (d : ByteSeq) :
    termSum (transparencyStep cfg pil st ean ext d).1.stats = termSum st.stats ∧
    statLe st.stats (transparencyStep cfg pil st ean ext d).1.stats := by
  unfold transparencyStep
  dsimp only
  split
  · split <;> simp [termSum, statLe]
  · simp [termSum, statLe]

theorem afterFetch_stats (cfg : Config) (pil : PILEnv) (st : RunState)
    (ean ext : String) (d : ByteSeq) :
    termSum (afterFetch cfg pil st ean ext d).1.stats = termSum st.stats + 1 ∧
    statLe st.stats (afterFetch cfg pil st ean ext d).1.stats := by
  unfold afterFetch
  dsimp only
  obtain ⟨ht1, ht2⟩ := transparencyStep_stats cfg pil st ean ext d
  split
  · split
    · constructor
      · simp only [termSum] at *
        simp [statLe] at ht2
        omega
      · refine statLe_trans ht2 ?_
        simp [statLe]
    · rename_i data2 heq
      obtain ⟨hf1, hf2⟩ := finishRow_stats cfg
        { (transparencyStep cfg pil st ean ext d).1 with
          stats := { (transparencyStep cfg pil st ean ext d).1.stats with
            konwersje := (transparencyStep cfg pil st ean ext d).1.stats.konwersje + 1 } }
        ean ".png" data2
      constructor
      · rw [hf1]
        simp only [termSum] at *
        omega
      · refine statLe_trans ht2 (statLe_trans ?_ hf2)
        simp [statLe]
  · obtain ⟨hf1, hf2⟩ := finishRow_stats cfg
      (transparencyStep cfg pil st ean ext d).1 ean ext
      (transparencyStep cfg pil st ean ext d).2
    constructor
    · rw [hf1, ht1]
    · exact statLe_trans ht2 hf2

theorem addSleep_stats (st : RunState) (o : Outcome) :
    (addSleep st o).stats = st.stats := by
  unfold addSleep
  split <;> rfl

/-- C1 (amended): every processed row increments exactly one of the six
terminal-outcome counters (empty, filtered-out, unsupported-format,
error, duplicate-skipped, added) — their sum grows by exactly one per
row — and no counter is ever decremented; the converted and
transparency-fixed counters are auxiliary and may be incremented in
addition on the same row. -/
theorem c1_terminal_increment (cfg : Config) (env : Env)
    (fs : Option (List String)) (st : RunState) (row : Row) :
    termSum (processRow cfg env fs st row).1.stats = termSum st.stats + 1 ∧
    statLe st.stats (processRow cfg env fs st row).1.stats := by
  rcases row with ⟨ec, lk⟩
  unfold processRow
  cases lk with
  | none => cases ec <;> simp [termSum, statLe] <;> omega
  | some l =>
    cases ec with
    | none => simp [termSum, statLe] <;> omega
    | some c =>
      dsimp only
      split
      · simp [termSum, statLe] <;> omega
      · split
        · simp [termSum, statLe] <;> omega
        · dsimp only
          split
          · rename_i e heq
            rw [addSleep_stats]
            simp [termSum, statLe] <;> omega
          · rename_i data0 heq
            rw [addSleep_stats]
            obtain ⟨h1, h2⟩ := afterFetch_stats cfg env.pil
              { st with foundEans := insertIfNew st.foundEans (normEan c) }
              (normEan c)
              (if (env.extOf l == "" || !ALLOWED_FORMATS.contains (env.extOf l)) = true then
                DEFAULT_FORMAT else env.extOf l)
              data0
            constructor
            · rw [h1]
            · exact h2

/-- C1 (counterexample to the claim as stated): a row whose URL resolves
to `.webp`, with WebP conversion enabled, downloads and converts
successfully; its single terminal outcome is `added`, yet two counters
of the statistics are incremented (`sukces` and `konwersje`), so the
row does not yield exactly one statistics-counter increment. -/
theorem c1_two_increments_for_one_row :
    (processRow cfgWebp envWebpOk none initState rowU).2 = Outcome.added ∧
    allSum (processRow cfgWebp envWebpOk none initState rowU).1.stats = 2 ∧
    (processRow cfgWebp envWebpOk none initState rowU).1.stats.sukces = 1 ∧
    (processRow cfgWebp envWebpOk none initState rowU).1.stats.konwersje = 1 := by
  refine ⟨by decide, by decide, by decide, by decide⟩

/-- C2: a numeric identifier cell holding the integer value `N`
normalizes to the decimal string of `N`, which contains no `'.'` and in
particular does not end in `".0"`; a text cell that parses numerically
to `k` normalizes to the decimal string of `k`; a cell whose value
fails numeric parsing falls back to its literal string form; in every
case the result is whitespace-stripped with internal spaces removed
(the fallback is literally `strip` plus space removal, and the decimal
strings are fixed points of both). -/
theorem c2_identifier_normalization :
    (∀ n : Int, normEan (.numV n) = intStr n ∧
       (∀ pre : List Char, (intStr n).data ≠ pre ++ ['.', '0']) ∧
       '.' ∉ (intStr n).data) ∧
    (∀ s k, pyParseNumTrunc s = some k → normEan (.strV s) = intStr k) ∧
    (∀ s, pyParseNumTrunc s = none →
       normEan (.strV s) = pyRemoveSpaces (pyStrip s)) := by
  refine ⟨fun n => ⟨normEan_numV n, ?_, dot_not_mem_intStr n⟩, ?_, ?_⟩
  · intro pre hpre
    apply dot_not_mem_intStr n
    rw [hpre]
    simp
  · intro s k h
    show (match pyParseNumTrunc s with
      | some k => pyRemoveSpaces (pyStrip (intStr k))
      | none => pyRemoveSpaces (pyStrip s)) = intStr k
    rw [h]
    show pyRemoveSpaces (pyStrip (intStr k)) = intStr k
    rw [pyStrip_intStr, pyRemoveSpaces_intStr]
  · intro s h
    show (match pyParseNumTrunc s with
      | some k => pyRemoveSpaces (pyStrip (intStr k))
      | none => pyRemoveSpaces (pyStrip s)) = pyRemoveSpaces (pyStrip s)
    rw [h]

/-- C2 witness: the spec's own example `1234567890123.0` stored as text
normalizes to `"1234567890123"`, and a non-numeric cell falls back to
its stripped, space-free literal form. -/
theorem c2_identifier_normalization_witness :
    normEan (.strV "1234567890123.0") = intStr 1234567890123 ∧
    normEan (.strV " ab c ") = pyRemoveSpaces (pyStrip " ab c ") :=
  ⟨c2_identifier_normalization.2.1 "1234567890123.0" 1234567890123 (by decide),
   c2_identifier_normalization.2.2 " ab c " (by decide)⟩

/-- C4 (amended): the enhanced-variant fetch makes at most 3 attempts,
sleeping 2 units before each retry (total sleep `2·(attempts − 1)`);
it returns immediately on the first success and propagates the last
failure only after all three attempts fail.  The basic variant
(`src/app.py`) instead makes exactly one attempt and propagates any
failure immediately, with no retry and no delay. -/
theorem c4_fetch_retries :
    (∀ o, (pobierz_obraz_pro o).attempts ≤ 3) ∧
    (∀ o, (pobierz_obraz_pro o).sleepUnits =
      2 * ((pobierz_obraz_pro o).attempts - 1)) ∧
    (∀ o b, o 0 = .ok b → pobierz_obraz_pro o = ⟨.ok b, 1, 0⟩) ∧
    (∀ o e b, o 0 = .error e → o 1 = .ok b →
       pobierz_obraz_pro o = ⟨.ok b, 2, 2⟩) ∧
    (∀ o e0 e1 b, o 0 = .error e0 → o 1 = .error e1 → o 2 = .ok b →
       pobierz_obraz_pro o = ⟨.ok b, 3, 4⟩) ∧
    (∀ o e0 e1 e2, o 0 = .error e0 → o 1 = .error e1 → o 2 = .error e2 →
       pobierz_obraz_pro o = ⟨.error e2, 3, 4⟩) ∧
    (∀ o, pobierz_obraz_basic o = ⟨o 0, 1, 0⟩) := by
  refine ⟨?_, ?_, ?_, ?_, ?_, ?_, fun o => rfl⟩
  · intro o
    cases h0 : o 0 <;> cases h1 : o 1 <;> cases h2 : o 2 <;>
      simp [pobierz_obraz_pro, fetchAux, h0, h1, h2]
  · intro o
    cases h0 : o 0 <;> cases h1 : o 1 <;> cases h2 : o 2 <;>
      simp [pobierz_obraz_pro, fetchAux, h0, h1, h2]
  · intro o b h
    simp [pobierz_obraz_pro, fetchAux, h]
  · intro o e b h0 h1
    simp [pobierz_obraz_pro, fetchAux, h0, h1]
  · intro o e0 e1 b h0 h1 h2
    simp [pobierz_obraz_pro, fetchAux, h0, h1, h2]
  · intro o e0 e1 e2 h0 h1 h2
    simp [pobierz_obraz_pro, fetchAux, h0, h1, h2]

/-- C4 witness: against a host that is permanently down, the enhanced
fetch makes its three attempts with two 2-unit pauses and only then
propagates the failure; the basic fetch gives up at once. -/
theorem c4_fetch_retries_witness :
    pobierz_obraz_pro oracleAllErr = ⟨.error "down", 3, 4⟩ ∧
    pobierz_obraz_basic oracleAllErr = ⟨.error "down", 1, 0⟩ :=
  ⟨c4_fetch_retries.2.2.2.2.2.1 oracleAllErr "down" "down" "down" rfl rfl rfl,
   c4_fetch_retries.2.2.2.2.2.2 oracleAllErr⟩

/-- C4 (counterexample to the claim as stated): the claim's sources
include the basic variant's `pobierz_obraz` (`src/app.py` lines 58–65),
but on a transport failure that variant makes no retry and no
inter-attempt delay: with a host whose first request fails and whose
retries would succeed, it propagates the failure after a single
attempt, while the enhanced variant's retry recovers. -/
theorem c4_basic_variant_never_retries :
    (pobierz_obraz_basic oracleFailFirst).result = Except.error "boom" ∧
    (pobierz_obraz_basic oracleFailFirst).attempts = 1 ∧
    (pobierz_obraz_basic oracleFailFirst).sleepUnits = 0 ∧
    (pobierz_obraz_pro oracleFailFirst).result = Except.ok [1] :=
  ⟨rfl, rfl, rfl, rfl⟩

/-- C6: whenever decoding succeeds and `has_transparency` reports no
transparency (no non-opaque alpha and no palette transparency marker),
`add_white_background` returns its input byte sequence itself — a
byte-identical passthrough with no re-encode. -/
theorem c6_opaque_passthrough (pil : PILEnv) (b : ByteSeq) (img : PILImage)
    (hopen : pil.imageOpen b = some img)
    (htr : has_transparency img = false) :
    add_white_background pil b = b := by
  unfold add_white_background awbBody
  rw [hopen]
  simp [htr]

/-- C6 witness: an opaque RGB decode passes bytes through unchanged. -/
theorem c6_opaque_passthrough_witness :
    add_white_background pilOpaque [1, 2] = [1, 2] :=
  c6_opaque_passthrough pilOpaque [1, 2] imgRGB rfl rfl

/-- C9: `add_white_background` is total and never signals an error: when
decoding fails (bytes are not an image) it returns its input unchanged;
when re-encoding a transparent image fails it returns its input
unchanged; and in every case the result is either the input bytes or a
successfully re-encoded flattened image. -/
theorem c9_awb_never_raises (pil : PILEnv) (b : ByteSeq) :
    (pil.imageOpen b = none → add_white_background pil b = b) ∧
    (∀ img, pil.imageOpen b = some img → has_transparency img = true →
       pil.saveFlattened img = none → add_white_background pil b = b) ∧
    (add_white_background pil b = b ∨
      ∃ img, pil.imageOpen b = some img ∧ has_transparency img = true ∧
        pil.saveFlattened img = some (add_white_background pil b)) := by
  refine ⟨?_, ?_, ?_⟩
  · intro h
    unfold add_white_background awbBody
    rw [h]
  · intro img hopen htr hsave
    unfold add_white_background awbBody
    rw [hopen]
    simp [htr, hsave]
  · unfold add_white_background awbBody
    cases hopen : pil.imageOpen b with
    | none => left; rfl
    | some img =>
      by_cases htr : has_transparency img = false
      · left
        simp [htr]
      · cases hsave : pil.saveFlattened img with
        | none => left; simp [htr, hsave]
        | some out =>
          right
          refine ⟨img, rfl, by simpa using htr, ?_⟩
          simp [htr, hsave]

/-- C9 witness: undecodable bytes and a failed re-encode both fall back
to the input bytes. -/
theorem c9_awb_never_raises_witness :
    add_white_background pilBroken [1] = [1] ∧
    add_white_background pilEncodeFail [1] = [1] :=
  ⟨(c9_awb_never_raises pilBroken [1]).1 rfl,
   (c9_awb_never_raises pilEncodeFail [1]).2.1 imgRGBAT rfl rfl rfl⟩

theorem keyMem_iff {l : List (String × ByteSeq)} {k : String} :
    keyMem l k = true ↔ k ∈ keysOf l := by
  simp [keyMem, keysOf, List.any_eq_true, List.mem_map, beq_iff_eq]

theorem keysOf_dictSet_of_mem {l : List (String × ByteSeq)} {k : String}
    (v : ByteSeq) (h : keyMem l k = true) :
    keysOf (dictSet l k v) = keysOf l := by
  induction l with
  | nil => simp [keyMem] at h
  | cons p t ih =>
    obtain ⟨k', v'⟩ := p
    unfold dictSet
    by_cases hk : k' = k
    · subst hk
      simp [keysOf]
    · simp only [if_neg hk]
      have h' : keyMem t k = true := by
        simp [keyMem, beq_iff_eq] at h ⊢
        rcases h with h | h
        · exact absurd h hk
        · exact h
      simp only [keysOf, List.map_cons] at ih ⊢
      rw [ih h']

theorem keysOf_dictSet_of_not_mem {l : List (String × ByteSeq)} {k : String}
    (v : ByteSeq) (h : keyMem l k = false) :
    keysOf (dictSet l k v) = keysOf l ++ [k] := by
  induction l with
  | nil => simp [dictSet, keysOf]
  | cons p t ih =>
    obtain ⟨k', v'⟩ := p
    unfold dictSet
    by_cases hk : k' = k
    · subst hk
      simp [keyMem] at h
    · simp only [if_neg hk]
      have h' : keyMem t k = false := by
        simp [keyMem, beq_iff_eq] at h ⊢
        intro x hx
        exact (h.2 x hx)
      simp only [keysOf, List.map_cons] at ih ⊢
      rw [ih h']
      simp

theorem dictGet_dictSet_self {l : List (String × ByteSeq)} (k : String)
    (v : ByteSeq) : dictGet (dictSet l k v) k = some v := by
  induction l with
  | nil => simp [dictSet, dictGet]
  | cons p t ih =>
    obtain ⟨k', v'⟩ := p
    unfold dictSet
    by_cases hk : k' = k
    · subst hk
      simp [dictGet]
    · simp only [if_neg hk]
      unfold dictGet
      rw [if_neg hk]
      exact ih

theorem bundleAdd_nodup (files : List (String × ByteSeq)) (ov : Bool)
    (f : String) (d : ByteSeq) (h : (keysOf files).Nodup) :
    (keysOf (bundleAdd files ov f d).1).Nodup := by
  unfold bundleAdd
  split
  · exact h
  · cases hm : keyMem files f
    · rw [keysOf_dictSet_of_not_mem d hm]
      rw [List.nodup_append]
      refine ⟨h, List.nodup_singleton f, ?_⟩
      intro a ha hb
      simp at hb
      subst hb
      rw [← keyMem_iff] at ha
      rw [hm] at ha
      exact absurd ha (by simp)
    · rw [keysOf_dictSet_of_mem d hm]
      exact h

theorem bundleAdd_fold_nodup_aux (ov : Bool) (calls : List (String × ByteSeq)) :
    ∀ fs, (keysOf fs).Nodup →
      (keysOf (calls.foldl (fun fs c => (bundleAdd fs ov c.1 c.2).1) fs)).Nodup := by
  induction calls with
  | nil => intro fs h; exact h
  | cons c cs ih =>
    intro fs h
    exact ih _ (bundleAdd_nodup fs ov c.1 c.2 h)

/-- C3: the bundle never holds two entries under one filename (starting
from an empty bundle, any sequence of adds keeps the key list
duplicate-free, and a single add preserves that invariant); with
overwrite disabled, adding under an existing filename returns the
bundle unchanged with the duplicate-skip flag set — so the first
payload is kept and the orchestrator counts the row as
duplicate-skipped (`istnieje`) with outcome `duplicate`; with overwrite
enabled, the later payload replaces the earlier one. -/
theorem c3_bundle_overwrite_policy :
    (∀ ov (calls : List (String × ByteSeq)),
       (keysOf (calls.foldl (fun fs c => (bundleAdd fs ov c.1 c.2).1) [])).Nodup) ∧
    (∀ files ov f d, (keysOf files).Nodup →
       (keysOf (bundleAdd files ov f d).1).Nodup) ∧
    (∀ files f d, keyMem files f = true →
       bundleAdd files false f d = (files, true)) ∧
    (∀ files f d, dictGet (bundleAdd files true f d).1 f = some d) ∧
    (∀ cfg st e x d, cfg.overwrite = false →
       keyMem st.files (e ++ x) = true →
       (finishRow cfg st e x d).2 = Outcome.duplicate ∧
       (finishRow cfg st e x d).1.files = st.files ∧
       (finishRow cfg st e x d).1.stats.istnieje = st.stats.istnieje + 1) := by
  refine ⟨?_, bundleAdd_nodup, ?_, ?_, ?_⟩
  · intro ov calls
    exact bundleAdd_fold_nodup_aux ov calls [] (by simp [keysOf])
  · intro files f d h
    unfold bundleAdd
    simp [h]
  · intro files f d
    unfold bundleAdd
    simp [dictGet_dictSet_self]
  · intro cfg st e x d hov hmem
    have hb : bundleAdd st.files cfg.overwrite (e ++ x) d = (st.files, true) := by
      unfold bundleAdd
      simp [hmem, hov]
    unfold finishRow
    rw [hb]
    simp

/-- C3 witness: a second add of `a.jpg` without overwrite is a no-op
keeping the first payload; with overwrite it replaces the payload; the
key list stays duplicate-free. -/
theorem c3_bundle_overwrite_policy_witness :
    bundleAdd [("a.jpg", [1])] false "a.jpg" [2] = ([("a.jpg", [1])], true) ∧
    dictGet (bundleAdd [("a.jpg", [1])] true "a.jpg" [2]).1 "a.jpg" = some [2] ∧
    (keysOf (bundleAdd [("a.jpg", [1])] false "b.jpg" [2]).1).Nodup :=
  ⟨c3_bundle_overwrite_policy.2.2.1 [("a.jpg", [1])] "a.jpg" [2] (by decide),
   c3_bundle_overwrite_policy.2.2.2.1 [("a.jpg", [1])] "a.jpg" [2],
   c3_bundle_overwrite_policy.2.1 [("a.jpg", [1])] false "b.jpg" [2] (by decide)⟩

theorem transparencyStep_frame (cfg : Config) (pil : PILEnv) (st : RunState)
    (ean ext : String) (d : ByteSeq) :
    (transparencyStep cfg pil st ean ext d).1.sleeps = st.sleeps ∧
    (transparencyStep cfg pil st ean ext d).1.errors = st.errors ∧
    (transparencyStep cfg pil st ean ext d).1.foundEans = st.foundEans ∧
    (transparencyStep cfg pil st ean ext d).1.files = st.files ∧
    (transparencyStep cfg pil st ean ext d).1.stats.blad = st.stats.blad := by
  unfold transparencyStep
  dsimp only
  split
  · split <;> simp
  · simp

theorem finishRow_frame (cfg : Config) (st : RunState) (ean ext : String)
    (d : ByteSeq) :
    (finishRow cfg st ean ext d).1.sleeps = st.sleeps ∧
    (finishRow cfg st ean ext d).1.errors = st.errors ∧
    (finishRow cfg st ean ext d).1.foundEans = st.foundEans := by
  unfold finishRow
  dsimp only
  split <;> simp

theorem afterFetch_frame (cfg : Config) (pil : PILEnv) (st : RunState)
    (ean ext : String) (d : ByteSeq) :
    (afterFetch cfg pil st ean ext d).1.sleeps = st.sleeps ∧
    (afterFetch cfg pil st ean ext d).1.foundEans = st.foundEans := by
  obtain ⟨hs, he, hf, _, _⟩ := transparencyStep_frame cfg pil st ean ext d
  unfold afterFetch
  dsimp only
  split
  · split
    · exact ⟨hs, hf⟩
    · rename_i data2 heq
      constructor
      · rw [(finishRow_frame _ _ _ _ _).1]
        exact hs
      · rw [(finishRow_frame _ _ _ _ _).2.2]
        exact hf
  · constructor
    · rw [(finishRow_frame _ _ _ _ _).1]
      exact hs
    · rw [(finishRow_frame _ _ _ _ _).2.2]
      exact hf

theorem addSleep_frame (st : RunState) (o : Outcome) :
    (addSleep st o).errors = st.errors ∧
    (addSleep st o).files = st.files ∧
    (addSleep st o).foundEans = st.foundEans := by
  unfold addSleep
  split <;> simp

theorem addSleep_sleeps (st : RunState) (o : Outcome) :
    (addSleep st o).sleeps =
      st.sleeps + (if o = Outcome.errorOut ∨ o = Outcome.added then 1 else 0) := by
  unfold addSleep
  split <;> rename_i h <;> simp at h <;> simp [h]

/-- C7 (amended): the orchestrator pauses for the configured inter-row
delay exactly when the row's terminal outcome is error or added; the
empty, filtered-out, unsupported-format **and duplicate-skipped** paths
all `continue` past the `time.sleep` at the bottom of the loop, so a
duplicate-skipped row — although it reached FETCHING — is not followed
by the delay. -/
theorem c7_throttle_after_error_or_added (cfg : Config) (env : Env)
    (fs : Option (List String)) (st : RunState) (row : Row) :
    (processRow cfg env fs st row).1.sleeps =
      st.sleeps + (if (processRow cfg env fs st row).2 = Outcome.errorOut ∨
                      (processRow cfg env fs st row).2 = Outcome.added then 1 else 0) := by
  rcases row with ⟨ec, lk⟩
  unfold processRow
  cases lk with
  | none => cases ec <;> simp
  | some l =>
    cases ec with
    | none => simp
    | some c =>
      dsimp only
      split
      · simp
      · split
        · simp
        · dsimp only
          split
          · rw [addSleep_sleeps]
          · rename_i data0 heq
            rw [addSleep_sleeps]
            rw [(afterFetch_frame cfg env.pil
              { st with foundEans := insertIfNew st.foundEans (normEan c) }
              (normEan c)
              (if (env.extOf l == "" || !ALLOWED_FORMATS.contains (env.extOf l)) = true then
                DEFAULT_FORMAT else env.extOf l) data0).1]

/-- C7 (counterexample to the claim as stated): a row whose fetch
succeeds but whose filename already sits in the bundle ends in the
duplicate-skipped terminal state — a state only reachable after
FETCHING — yet the orchestrator executes no inter-row pause for it,
because the duplicate branch's `continue` skips `time.sleep`. -/
theorem c7_duplicate_row_skips_delay :
    (processRow cfgWebp envJpgOk none stWithFile rowU).2 = Outcome.duplicate ∧
    (processRow cfgWebp envJpgOk none stWithFile rowU).1.sleeps = stWithFile.sleeps ∧
    stWithFile.sleeps = 0 :=
  ⟨by decide, by decide, rfl⟩

theorem transparencyStep_webp (cfg : Config) (pil : PILEnv) (st : RunState)
    (ean : String) (d : ByteSeq) :
    transparencyStep cfg pil st ean ".webp" d = (st, d) := by
  unfold transparencyStep
  simp

theorem afterFetch_webp_conv_error (cfg : Config) (pil : PILEnv)
    (st : RunState) (ean : String) (d : ByteSeq) (e : String)
    (hcw : cfg.convert_webp = true)
    (hconv : convert_webp_to_png pil d cfg.handle_transparency = .error e) :
    afterFetch cfg pil st ean ".webp" d =
      ({ st with
          stats := { st.stats with blad := st.stats.blad + 1 },
          errors := st.errors ++ [errEntry ean e] }, Outcome.errorOut) := by
  unfold afterFetch
  rw [transparencyStep_webp]
  dsimp only
  simp [hcw, hconv]

theorem processRow_fetch_error_spec (cfg : Config) (env : Env)
    (fs : Option (List String)) (st : RunState) (ec : CellVal) (l e : String)
    (hf : filterBlocks fs (normEan ec) = false)
    (hp : (env.extOf l == ".pdf" || pdfInUrl l) = false)
    (hfetch : env.fetchRes l = .error e) :
    (processRow cfg env fs st ⟨some ec, some l⟩).2 = Outcome.errorOut ∧
    (processRow cfg env fs st ⟨some ec, some l⟩).1.stats.blad = st.stats.blad + 1 ∧
    (processRow cfg env fs st ⟨some ec, some l⟩).1.errors =
      st.errors ++ [errEntry (normEan ec) e] := by
  unfold processRow
  dsimp only
  simp only [hf, hp, hfetch]
  refine ⟨by simp [addSleep], by simp [addSleep], by simp [addSleep]⟩

theorem processRow_conv_error_spec (cfg : Config) (env : Env)
    (fs : Option (List String)) (st : RunState) (ec : CellVal) (l : String)
    (d : ByteSeq) (e : String)
    (hf : filterBlocks fs (normEan ec) = false)
    (hw : env.extOf l = ".webp") (hp : pdfInUrl l = false)
    (hcw : cfg.convert_webp = true)
    (hfetch : env.fetchRes l = .ok d)
    (hconv : convert_webp_to_png env.pil d cfg.handle_transparency = .error e) :
    (processRow cfg env fs st ⟨some ec, some l⟩).2 = Outcome.errorOut ∧
    (processRow cfg env fs st ⟨some ec, some l⟩).1.stats.blad = st.stats.blad + 1 ∧
    (processRow cfg env fs st ⟨some ec, some l⟩).1.errors =
      st.errors ++ [errEntry (normEan ec) e] := by
  have h1 : ((".webp" : String) == ".pdf") = false := by decide
  have h2 : (((".webp" : String) == "") || !(ALLOWED_FORMATS.contains ".webp")) = false := by
    decide
  unfold processRow
  dsimp only
  rw [hw]
  simp only [hf, h1, hp, h2, hfetch, Bool.or_false, Bool.false_eq_true, if_false]
  rw [afterFetch_webp_conv_error cfg env.pil
    { st with foundEans := insertIfNew st.foundEans (normEan ec) }
    (normEan ec) d e hcw hconv]
  refine ⟨by simp [addSleep], by simp [addSleep], by simp [addSleep]⟩

theorem runRows_cons_outcome (cfg : Config) (env : Env)
    (fs : Option (List String)) (st : RunState) (row : Row) (rest : List Row)
    (o : Outcome) (hout : (processRow cfg env fs st row).2 = o) :
    runRows cfg env fs st (row :: rest) =
      ((runRows cfg env fs (processRow cfg env fs st row).1 rest).1,
       o :: (runRows cfg env fs (processRow cfg env fs st row).1 rest).2) := by
  conv_lhs => rw [runRows]
  rw [hout]

/-- C5: a row whose fetch fails (after retries) or whose WebP
conversion fails is caught at the row boundary: the row's outcome is
the error outcome, the failure counter `blad` is incremented by one, an
error record `"EAN: {id} | Błąd: {msg}"` is appended to the error log,
and the run continues with the remaining rows — the bad row only
contributes its error outcome to the outcome list. -/
theorem c5_row_error_caught :
    (∀ cfg env fs st rest ec l e,
       filterBlocks fs (normEan ec) = false →
       (env.extOf l == ".pdf" || pdfInUrl l) = false →
       env.fetchRes l = .error e →
       (processRow cfg env fs st ⟨some ec, some l⟩).2 = Outcome.errorOut ∧
       (processRow cfg env fs st ⟨some ec, some l⟩).1.stats.blad =
         st.stats.blad + 1 ∧
       (processRow cfg env fs st ⟨some ec, some l⟩).1.errors =
         st.errors ++ [errEntry (normEan ec) e] ∧
       runRows cfg env fs st (⟨some ec, some l⟩ :: rest) =
         ((runRows cfg env fs (processRow cfg env fs st ⟨some ec, some l⟩).1 rest).1,
          Outcome.errorOut ::
            (runRows cfg env fs (processRow cfg env fs st ⟨some ec, some l⟩).1 rest).2)) ∧
    (∀ cfg env fs st rest ec l d e,
       filterBlocks fs (normEan ec) = false →
       env.extOf l = ".webp" → pdfInUrl l = false →
       cfg.convert_webp = true →
       env.fetchRes l = .ok d →
       convert_webp_to_png env.pil d cfg.handle_transparency = .error e →
       (processRow cfg env fs st ⟨some ec, some l⟩).2 = Outcome.errorOut ∧
       (processRow cfg env fs st ⟨some ec, some l⟩).1.stats.blad =
         st.stats.blad + 1 ∧
       (processRow cfg env fs st ⟨some ec, some l⟩).1.errors =
         st.errors ++ [errEntry (normEan ec) e] ∧
       runRows cfg env fs st (⟨some ec, some l⟩ :: rest) =
         ((runRows cfg env fs (processRow cfg env fs st ⟨some ec, some l⟩).1 rest).1,
          Outcome.errorOut ::
            (runRows cfg env fs (processRow cfg env fs st ⟨some ec, some l⟩).1 rest).2)) := by
  constructor
  · intro cfg env fs st rest ec l e hf hp hfetch
    obtain ⟨h1, h2, h3⟩ := processRow_fetch_error_spec cfg env fs st ec l e hf hp hfetch
    exact ⟨h1, h2, h3, runRows_cons_outcome cfg env fs st _ rest _ h1⟩
  · intro cfg env fs st rest ec l d e hf hw hp hcw hfetch hconv
    obtain ⟨h1, h2, h3⟩ :=
      processRow_conv_error_spec cfg env fs st ec l d e hf hw hp hcw hfetch hconv
    exact ⟨h1, h2, h3, runRows_cons_outcome cfg env fs st _ rest _ h1⟩

/-- C5 witness: a permanently failing host on a one-row table yields the
error outcome, one failure count, and the expected error-log entry. -/
theorem c5_row_error_caught_witness :
    (processRow cfgWebp envJpgErr none initState ⟨some (.numV 5), some "u"⟩).2 =
      Outcome.errorOut ∧
    (processRow cfgWebp envJpgErr none initState ⟨some (.numV 5), some "u"⟩).1.stats.blad = 1 ∧
    (processRow cfgWebp envJpgErr none initState ⟨some (.numV 5), some "u"⟩).1.errors =
      ["EAN: 5 | Błąd: timeout"] := by
  obtain ⟨h1, h2, h3, h4⟩ :=
    c5_row_error_caught.1 cfgWebp envJpgErr none initState [] (.numV 5) "u" "timeout"
      rfl (by decide) rfl
  refine ⟨h1, by simpa using h2, ?_⟩
  rw [h3]
  decide

theorem mem_insertIfNew {l : List String} {x e : String}
    (h : e ∈ insertIfNew l x) : e ∈ l ∨ e = x := by
  unfold insertIfNew at h
  split at h
  · exact Or.inl h
  · rcases List.mem_append.mp h with h | h
    · exact Or.inl h
    · simp at h
      exact Or.inr h

theorem processRow_foundEans (cfg : Config) (env : Env)
    (fs : Option (List String)) (st : RunState) (row : Row) {e : String}
    (h : e ∈ (processRow cfg env fs st row).1.foundEans) :
    e ∈ st.foundEans ∨
      ∃ ec l, row.ean = some ec ∧ row.link = some l ∧ normEan ec = e := by
  rcases row with ⟨ec', lk'⟩
  unfold processRow at h
  cases lk' with
  | none =>
    cases ec' with
    | none => exact Or.inl h
    | some c => exact Or.inl h
  | some l =>
    cases ec' with
    | none => exact Or.inl h
    | some c =>
      dsimp only at h
      split at h
      · exact Or.inl h
      · split at h
        · dsimp only at h
          rcases mem_insertIfNew h with h | h
          · exact Or.inl h
          · exact Or.inr ⟨c, l, rfl, rfl, h.symm⟩
        · dsimp only at h
          split at h
          · rw [(addSleep_frame _ _).2.2] at h
            dsimp only at h
            rcases mem_insertIfNew h with h | h
            · exact Or.inl h
            · exact Or.inr ⟨c, l, rfl, rfl, h.symm⟩
          · rw [(addSleep_frame _ _).2.2, (afterFetch_frame _ _ _ _ _ _).2] at h
            dsimp only at h
            rcases mem_insertIfNew h with h | h
            · exact Or.inl h
            · exact Or.inr ⟨c, l, rfl, rfl, h.symm⟩

theorem runRows_foundEans (cfg : Config) (env : Env)
    (fs : Option (List String)) (rows : List Row) :
    ∀ st, ∀ e ∈ (runRows cfg env fs st rows).1.foundEans,
      e ∈ st.foundEans ∨
        ∃ row ∈ rows, ∃ ec l, row.ean = some ec ∧ row.link = some l ∧
          normEan ec = e := by
  induction rows with
  | nil => intro st e h; exact Or.inl h
  | cons r rs ih =>
    intro st e h
    unfold runRows at h
    dsimp only at h
    rcases ih (processRow cfg env fs st r).1 e h with h | ⟨row, hrow, hx⟩
    · rcases processRow_foundEans cfg env fs st r h with h | ⟨ec, l, hx⟩
      · exact Or.inl h
      · exact Or.inr ⟨r, List.mem_cons_self r rs, ec, l, hx⟩
    · exact Or.inr ⟨row, List.mem_cons_of_mem r hrow, hx⟩

theorem processRow_filtered_spec (cfg : Config) (env env2 : Env)
    (fsl : List String) (st : RunState) (ec : CellVal) (l : String)
    (hne : fsl ≠ []) (hnc : fsl.contains (normEan ec) = false) :
    (processRow cfg env (some fsl) st ⟨some ec, some l⟩).2 = Outcome.filtered ∧
    (processRow cfg env (some fsl) st ⟨some ec, some l⟩).1.stats.nieznalezione_ean =
      st.stats.nieznalezione_ean + 1 ∧
    processRow cfg env (some fsl) st ⟨some ec, some l⟩ =
      processRow cfg env2 (some fsl) st ⟨some ec, some l⟩ := by
  have hmem : normEan ec ∉ fsl := by simpa using hnc
  have hblocks : filterBlocks (some fsl) (normEan ec) = true := by
    unfold filterBlocks
    simp [List.isEmpty_iff, hne, hmem]
  unfold processRow
  dsimp only
  simp only [hblocks]
  exact ⟨rfl, rfl, rfl⟩

/-- C8: with a configured non-empty allow-list, (a) every allow-list
identifier matching no normalized identifier of a non-empty row ends up
in the missing-identifiers output set, and (b) every non-empty row
whose normalized identifier is absent from the allow-list gets the
filtered-out outcome, increments the filtered-out counter by one, and
is processed identically under any external environment — in
particular its URL is never fetched. -/
theorem c8_allowlist_missing_and_filtered :
    (∀ cfg env txt rows a,
       txt ≠ "" →
       a ∈ parseEanList txt →
       (∀ row ∈ rows, ∀ ec l, row.ean = some ec → row.link = some l →
          normEan ec ≠ a) →
       ∃ m, (runAll cfg env txt rows).2.2 = some m ∧ a ∈ m) ∧
    (∀ cfg env env2 fsl st ec l,
       fsl ≠ [] → fsl.contains (normEan ec) = false →
       (processRow cfg env (some fsl) st ⟨some ec, some l⟩).2 = Outcome.filtered ∧
       (processRow cfg env (some fsl) st
           ⟨some ec, some l⟩).1.stats.nieznalezione_ean =
         st.stats.nieznalezione_ean + 1 ∧
       processRow cfg env (some fsl) st ⟨some ec, some l⟩ =
         processRow cfg env2 (some fsl) st ⟨some ec, some l⟩) := by
  constructor
  · intro cfg env txt rows a htxt ha hnomatch
    have hfs : (if txt = "" then none else some (parseEanList txt)) =
        some (parseEanList txt) := if_neg htxt
    have hne : parseEanList txt ≠ [] := by
      intro hnil
      rw [hnil] at ha
      exact absurd ha (List.not_mem_nil a)
    unfold runAll
    rw [hfs]
    dsimp only
    unfold missingEans
    dsimp only
    rw [if_neg (by simpa [List.isEmpty_iff] using hne)]
    refine ⟨_, rfl, ?_⟩
    rw [List.mem_filter]
    refine ⟨ha, ?_⟩
    simp only [Bool.not_eq_true']
    rw [← Bool.not_eq_true]
    intro hcont
    simp only [List.contains_iff_exists_mem_beq, beq_iff_eq] at hcont
    obtain ⟨a2, hmem2, ha2⟩ := hcont
    subst ha2
    rcases runRows_foundEans cfg env (some (parseEanList txt)) rows initState a hmem2 with
      h | ⟨row, hrow, ec, l, he, hl, hn⟩
    · exact absurd h (List.not_mem_nil a)
    · exact hnomatch row hrow ec l he hl hn
  · intro cfg env env2 fsl st ec l hne hnc
    exact processRow_filtered_spec cfg env env2 fsl st ec l hne hnc

/-- C8 witness: allow-list `{"7"}` against a one-row table whose only
identifier is `5` reports `7` missing and filters the row out without
consulting the network. -/
theorem c8_allowlist_missing_and_filtered_witness :
    (∃ m, (runAll cfgWebp envJpgOk "7" [rowU]).2.2 = some m ∧ "7" ∈ m) ∧
    (processRow cfgWebp envJpgOk (some ["7"]) initState rowU).2 =
      Outcome.filtered := by
  constructor
  · refine c8_allowlist_missing_and_filtered.1 cfgWebp envJpgOk "7" [rowU] "7"
      (by decide) (by decide) ?_
    intro row hrow ec l he hl
    simp at hrow
    subst hrow
    simp [rowU] at he hl
    subst he
    decide
  · exact (c8_allowlist_missing_and_filtered.2 cfgWebp envJpgOk envJpgOk ["7"]
      initState (.numV 5) "u" (by decide) (by decide)).1

theorem dropWhile_nil_of_all {p : Char → Bool} {l : List Char}
    (h : ∀ c ∈ l, p c = true) : l.dropWhile p = [] := by
  induction l with
  | nil => rfl
  | cons a t ih =>
    rw [List.dropWhile_cons, h a (List.mem_cons_self a t)]
    exact ih (fun c hc => h c (List.mem_cons_of_mem a hc))

theorem pyStrip_blank {s : String} (h : ∀ c ∈ s.data, pyIsSpace c = true) :
    pyStrip s = "" := by
  unfold pyStrip stripChars
  rw [dropWhile_nil_of_all h]
  rfl

theorem parseEanList_blank {t : String}
    (h : ∀ c ∈ t.data, pyIsSpace c = true) : parseEanList t = [] := by
  by_cases ht : t = ""
  · rw [ht]
    rfl
  · unfold parseEanList
    rw [if_neg ht, pyStrip_blank h]
    decide

theorem processRow_some_nil (cfg : Config) (env : Env) (st : RunState)
    (row : Row) :
    processRow cfg env (some []) st row = processRow cfg env none st row := by
  rcases row with ⟨ec, lk⟩
  unfold processRow
  cases lk with
  | none => rfl
  | some l =>
    cases ec with
    | none => rfl
    | some c => simp [filterBlocks]

theorem runRows_some_nil (cfg : Config) (env : Env) (rows : List Row) :
    ∀ st, runRows cfg env (some []) st rows = runRows cfg env none st rows := by
  induction rows with
  | nil => intro st; rfl
  | cons r rs ih =>
    intro st
    unfold runRows
    dsimp only
    simp only [processRow_some_nil, ih]

theorem afterFetch_ne_filtered (cfg : Config) (pil : PILEnv) (st : RunState)
    (ean ext : String) (d : ByteSeq) :
    (afterFetch cfg pil st ean ext d).2 ≠ Outcome.filtered := by
  unfold afterFetch finishRow
  dsimp only
  split
  · split
    · simp
    · split <;> simp
  · split <;> simp

theorem processRow_none_ne_filtered (cfg : Config) (env : Env)
    (st : RunState) (row : Row) :
    (processRow cfg env none st row).2 ≠ Outcome.filtered := by
  rcases row with ⟨ec, lk⟩
  unfold processRow
  cases lk with
  | none => cases ec <;> simp
  | some l =>
    cases ec with
    | none => simp
    | some c =>
      dsimp only
      split
      · simp [filterBlocks] at *
      · split
        · simp
        · dsimp only
          split
          · simp
          · exact afterFetch_ne_filtered cfg env.pil _ _ _ _

theorem finishRow_niez (cfg : Config) (st : RunState) (ean ext : String)
    (d : ByteSeq) :
    (finishRow cfg st ean ext d).1.stats.nieznalezione_ean =
      st.stats.nieznalezione_ean := by
  unfold finishRow
  dsimp only
  split <;> rfl

theorem afterFetch_niez (cfg : Config) (pil : PILEnv) (st : RunState)
    (ean ext : String) (d : ByteSeq) :
    (afterFetch cfg pil st ean ext d).1.stats.nieznalezione_ean =
      st.stats.nieznalezione_ean := by
  have htr : (transparencyStep cfg pil st ean ext d).1.stats.nieznalezione_ean =
      st.stats.nieznalezione_ean := by
    unfold transparencyStep
    dsimp only
    split
    · split <;> rfl
    · rfl
  unfold afterFetch
  dsimp only
  split
  · split
    · exact htr
    · rw [finishRow_niez]
      exact htr
  · rw [finishRow_niez]
    exact htr

theorem processRow_none_niez (cfg : Config) (env : Env) (st : RunState)
    (row : Row) :
    (processRow cfg env none st row).1.stats.nieznalezione_ean =
      st.stats.nieznalezione_ean := by
  rcases row with ⟨ec, lk⟩
  unfold processRow
  cases lk with
  | none => cases ec <;> rfl
  | some l =>
    cases ec with
    | none => rfl
    | some c =>
      dsimp only
      split
      · simp [filterBlocks] at *
      · split
        · rfl
        · dsimp only
          split
          · rw [addSleep_stats]
          · rw [addSleep_stats]
            exact afterFetch_niez cfg env.pil _ _ _ _

theorem runRows_none_niez (cfg : Config) (env : Env) (rows : List Row) :
    ∀ st, (runRows cfg env none st rows).1.stats.nieznalezione_ean =
      st.stats.nieznalezione_ean := by
  induction rows with
  | nil => intro st; rfl
  | cons r rs ih =>
    intro st
    unfold runRows
    dsimp only
    rw [ih, processRow_none_niez]

theorem runRows_none_no_filtered (cfg : Config) (env : Env) (rows : List Row) :
    ∀ st, ∀ o ∈ (runRows cfg env none st rows).2, o ≠ Outcome.filtered := by
  induction rows with
  | nil => intro st o ho; simp [runRows] at ho
  | cons r rs ih =>
    intro st o ho
    unfold runRows at ho
    dsimp only at ho
    rcases List.mem_cons.mp ho with ho | ho
    · rw [ho]
      exact processRow_none_ne_filtered cfg env st r
    · exact ih _ o ho

/-- C10: a filter text consisting only of whitespace disables filtering
entirely — `parse_ean_list` yields the empty set, which is falsy, so
the run is identical to a run with no filter text at all: no row is
filtered out, the filtered-out counter stays zero, and the
missing-identifiers report is `None`. -/
theorem c10_blank_allowlist_disables_filter (txt : String)
    (hblank : ∀ c ∈ txt.data, pyIsSpace c = true)
    (cfg : Config) (env : Env) (rows : List Row) :
    runAll cfg env txt rows = runAll cfg env "" rows ∧
    (∀ o ∈ (runAll cfg env txt rows).2.1, o ≠ Outcome.filtered) ∧
    (runAll cfg env txt rows).1.stats.nieznalezione_ean = 0 ∧
    (runAll cfg env txt rows).2.2 = none := by
  have hrunAll : runAll cfg env txt rows = runAll cfg env "" rows := by
    by_cases ht : txt = ""
    · rw [ht]
    · unfold runAll
      dsimp only
      rw [if_neg ht, if_pos rfl, parseEanList_blank hblank, runRows_some_nil]
      rfl
  have hempty : runAll cfg env "" rows =
      ((runRows cfg env none initState rows).1,
       (runRows cfg env none initState rows).2, none) := by
    unfold runAll
    dsimp only
    rw [if_pos rfl]
    rfl
  refine ⟨hrunAll, ?_, ?_, ?_⟩
  · rw [hrunAll, hempty]
    intro o ho
    exact runRows_none_no_filtered cfg env rows initState o ho
  · rw [hrunAll, hempty]
    dsimp only
    rw [runRows_none_niez]
    rfl
  · rw [hrunAll, hempty]

/-- C10 witness: the whitespace-only filter text `" \n "` behaves like
no filter at all on a one-row table. -/
theorem c10_blank_allowlist_disables_filter_witness :
    runAll cfgWebp envJpgOk " 
 " [rowU] = runAll cfgWebp envJpgOk "" [rowU] ∧
    (runAll cfgWebp envJpgOk " 
 " [rowU]).2.2 = none :=
  ⟨(c10_blank_allowlist_disables_filter " 
 " (by decide) cfgWebp envJpgOk [rowU]).1,
   (c10_blank_allowlist_disables_filter " 
 " (by decide) cfgWebp envJpgOk [rowU]).2.2.2⟩
